import Mathlib

/-!
# v8dasm: a shallow embedding of `src/v8dasm.cpp`

The program reads a code-cache file, compiles a throwaway snippet with the host
engine to obtain a fresh cache blob, copies bytes 4..15 of that blob (version hash,
source hash, flag hash) over the same bytes of the file's buffer, and hands the
patched buffer to the engine's cache-consuming compile entry point.

The embedding keeps every function of the source under its own name.  The host
engine and the file system are parameters.  Raw memory accesses are index-checked:
an access outside a buffer ends the run with a `Fault`.  Every function returns a
`Run`: the external actions it performed, in order, together with its result.
-/

namespace V8dasm

/-- One octet: a `char` of the file buffer, a `uint8_t` of a cache blob. -/
abbrev Byte := Fin 256

/-- The two buffers touched by the patch loop of `fixBytecode`. -/
inductive Buffer where
  | target
  | dummy
  deriving DecidableEq, Repr

/-- Abnormal ends of a run; the program has no error reporting of its own. -/
inductive Fault where
  /-- An access at index `i` outside the named buffer. -/
  | outOfBounds (buf : Buffer) (i : Nat)
  /-- `std::vector<char>::resize(n)` asked for more than `max_size()` elements. -/
  | lengthError (n : Nat)
  deriving DecidableEq, Repr

/-- Externally visible actions, in program order. -/
inductive Event where
  /-- `std::ifstream infile(file, std::ifstream::binary)` in `readAllBytes`. -/
  | openFile (file : String)
  /-- `compileCode(src)`: compile `src` and serialise its code cache. -/
  | createCodeCache (src : String)
  /-- `bytecodeBuffer[i] = v` in the loop of `fixBytecode`. -/
  | store (i : Nat) (v : Byte)
  /-- `ScriptCompiler::CompileUnboundScript(isolate, &source, kConsumeCodeCache)` where
  `source` carries the string `src`, the origin name and `CachedData(data, len)`. -/
  | consume (src : String) (origin : String) (data : List Byte) (len : Int)
  deriving DecidableEq, Repr

/-- Outcome of running a piece of the program: the actions performed so far and
either a fault or the value produced. -/
structure Run (α : Type) where
  log : List Event
  res : Except Fault α

/-- The host engine, as far as `compileCode` uses it: the bytes of the code cache
that `ScriptCompiler::CreateCodeCache` returns for a compiled source string. -/
structure Engine where
  createCodeCache : String → List Byte

/-- A file that can be opened; its size fits the signed 64-bit stream offset. -/
structure FileData where
  bytes : List Byte
  size_ok : bytes.length < 2 ^ 63

/-- The file system: `none` for a path that cannot be opened. -/
abbrev FileSystem := String → Option FileData

/-! ## Integer conversions -/

/-- Conversion of a stream position to `size_t` (64 bit): reduction modulo `2^64`. -/
def toSizeT (x : Int) : Nat := (x % 2 ^ 64).toNat

/-- Conversion of a `size_t` to `int` (32 bit, two's complement). -/
def toInt (n : Nat) : Int :=
  if n % 2 ^ 32 < 2 ^ 31 then ((n % 2 ^ 32 : Nat) : Int)
  else ((n % 2 ^ 32 : Nat) : Int) - 2 ^ 32

/-! ## `std::ifstream` and `std::vector<char>` -/

/-- Direction argument of `seekg`. -/
inductive SeekDir where
  | fromBeg
  | fromEnd
  deriving DecidableEq, Repr

/-- State of an input file stream. -/
structure IfStream where
  /-- Bytes of the opened file; empty when opening failed. -/
  content : List Byte
  /-- Get position. -/
  pos : Nat
  /-- Whether `fail()` holds. -/
  failed : Bool
  deriving DecidableEq, Repr

/-- Constructor `std::ifstream(file, binary)`: a failed open sets `failbit`. -/
def IfStream.open (fs : FileSystem) (file : String) : IfStream :=
  match fs file with
  | some f => { content := f.bytes, pos := 0, failed := false }
  | none => { content := [], pos := 0, failed := true }

/-- Member `seekg(off, dir)`: does nothing on a failed stream; a position outside the
file sets `failbit`. -/
def IfStream.seekg (s : IfStream) (off : Int) (dir : SeekDir) : IfStream :=
  if s.failed then s
  else
    let base : Int := match dir with
      | .fromBeg => 0
      | .fromEnd => s.content.length
    let p := base + off
    if 0 ≤ p ∧ p ≤ s.content.length then { s with pos := p.toNat }
    else { s with failed := true }

/-- Member `tellg()`: `-1` on a failed stream, the get position otherwise. -/
def IfStream.tellg (s : IfStream) : Int :=
  if s.failed then -1 else s.pos

/-- Member `read(&buffer[0], count)`: stores the extracted bytes at the front of
`buffer`; extracts nothing on a failed stream, and sets `failbit` when the file ends
before `count` bytes. -/
def IfStream.read (s : IfStream) (buffer : List Byte) (count : Nat) : IfStream × List Byte :=
  if s.failed then (s, buffer)
  else
    let got := (s.content.drop s.pos).take count
    ({ s with pos := s.pos + got.length, failed := decide (got.length < count) },
      got ++ buffer.drop got.length)

/-- Value of `std::vector<char>::max_size()` on the 64-bit target (`PTRDIFF_MAX`). -/
def vectorMaxSize : Nat := 2 ^ 63 - 1

/-- Member `std::vector<char>::resize(n)`: keeps the first `n` elements, appends zero
bytes up to size `n`, and throws `std::length_error` beyond `max_size()`. -/
def vectorResize (buffer : List Byte) (n : Nat) : Except Fault (List Byte) :=
  if n ≤ vectorMaxSize then .ok (buffer.take n ++ List.replicate (n - buffer.length) 0)
  else .error (.lengthError n)

/-! ## The functions of `v8dasm.cpp` -/

/-- Source lines 24-31: compile `data` and return the code cache created for it. -/
def compileCode (eng : Engine) (data : String) : Run (List Byte) :=
  { log := [.createCodeCache data], res := .ok (eng.createCodeCache data) }

/-- The loop `for (int i = 4; i < 16; i++) bytecodeBuffer[i] = dummyBytecode->data[i];`
of `fixBytecode`, started at index `i` with `k = 16 - i` iterations left.  The right
operand is read first, then the element of the target is written. -/
def fixBytecodeLoop (dummyBytecode : List Byte) :
    Nat → Nat → List Event → List Byte → Run (List Byte)
  | 0, _, log, bytecodeBuffer => { log := log, res := .ok bytecodeBuffer }
  | k + 1, i, log, bytecodeBuffer =>
    match dummyBytecode[i]? with
    | none => { log := log, res := .error (.outOfBounds .dummy i) }
    | some v =>
      if i < bytecodeBuffer.length then
        fixBytecodeLoop dummyBytecode k (i + 1) (log ++ [.store i v]) (bytecodeBuffer.set i v)
      else { log := log, res := .error (.outOfBounds .target i) }

/-- Source lines 33-43: copy bytes 4..15 of the dummy cache for `code` into the target. -/
def fixBytecode (eng : Engine) (bytecodeBuffer : List Byte) (code : String) :
    Run (List Byte) :=
  let dummyBytecode := compileCode eng code
  match dummyBytecode.res with
  | .error f => { log := dummyBytecode.log, res := .error f }
  | .ok d => fixBytecodeLoop d (16 - 4) 4 dummyBytecode.log bytecodeBuffer

/-- The constant snippet `code` of `runBytecode` (source line 47). -/
def code : String := "\"ಠ_ಠ\""

/-- Source lines 45-60: patch the buffer, wrap it with `len` in a `CachedData`, attach
it to a source made of the same snippet, and compile consuming the code cache. -/
def runBytecode (eng : Engine) (bytecodeBuffer : List Byte) (len : Int) : Run Unit :=
  let fixed := fixBytecode eng bytecodeBuffer code
  match fixed.res with
  | .error f => { log := fixed.log, res := .error f }
  | .ok buf =>
    { log := fixed.log ++ [.consume code "code.jsc" buf len], res := .ok () }

/-- Source lines 62-73: read the whole file into `buffer`. -/
def readAllBytes (fs : FileSystem) (file : String) (buffer : List Byte) :
    Run (List Byte) :=
  let infile := IfStream.open fs file
  let infile := infile.seekg 0 .fromEnd
  let length := toSizeT infile.tellg
  let infile := infile.seekg 0 .fromBeg
  if length > 0 then
    match vectorResize buffer length with
    | .error f => { log := [.openFile file], res := .error f }
    | .ok buffer => { log := [.openFile file], res := .ok (infile.read buffer length).2 }
  else { log := [.openFile file], res := .ok buffer }

/-- Source lines 95-97: read the file named by `argv[1]` into an empty vector and run
the bytecode, the vector's size being passed as an `int`. -/
def main (fs : FileSystem) (eng : Engine) (argv1 : String) : Run Unit :=
  let data : List Byte := []
  let loaded := readAllBytes fs argv1 data
  match loaded.res with
  | .error f => { log := loaded.log, res := .error f }
  | .ok data =>
    let ran := runBytecode eng data (toInt data.length)
    { log := loaded.log ++ ran.log, res := ran.res }

/-! ## Vocabulary of the statements -/

/-- The `store` events of the patch loop for the `n` indices `i, i+1, ..., i+n-1`, each
carrying the byte of the dummy blob `d` at its index. -/
def stores (d : List Byte) (i n : Nat) : List Event :=
  (List.range' i n).map (fun j => Event.store j (d.getD j 0))

/-- Modelled from the spec: a 4-byte field of a serialised code-cache header, read at
a byte offset.  The header layout belongs to the host engine, not to this program. -/
def headerField (blob : List Byte) (offset : Nat) : List Byte :=
  (blob.drop offset).take 4

/-- Modelled from the spec: the engine's cache-validity check, which is part of the
host engine and absent from this program.  It compares the version hash (offset 4),
the source hash (offset 8) and the flag hash (offset 12) of `blob` with the values
the running engine computes for `source`, i.e. those found in a cache the same
engine creates for `source`.  A blob shorter than 16 bytes fails. -/
def cacheValidityCheck (eng : Engine) (source : String) (blob : List Byte) : Bool :=
  decide (16 ≤ blob.length) &&
    (headerField blob 4 == headerField (eng.createCodeCache source) 4 &&
      (headerField blob 8 == headerField (eng.createCodeCache source) 8 &&
        headerField blob 12 == headerField (eng.createCodeCache source) 12))

/-! ## Sample inputs -/

/-- An engine whose cache for every source is a fixed 24-byte blob. -/
def sampleEngine : Engine :=
  ⟨fun _ => [0xC0, 0xDE, 0x04, 0x1A, 0x11, 0x12, 0x13, 0x14, 0x21, 0x22, 0x23, 0x24,
    0x31, 0x32, 0x33, 0x34, 0x08, 0x00, 0x00, 0x00, 0x5A, 0x5B, 0x5C, 0x5D]⟩

/-- A 20-byte cache file. -/
def sampleFile : FileData := ⟨List.replicate 20 0xAA, by decide⟩

/-- A 6-byte file, too short to hold the three hashes. -/
def shortFile : FileData := ⟨[0xC0, 0xDE, 0x04, 0x1A, 0x01, 0x02], by decide⟩

/-- A file of length zero. -/
def emptyFile : FileData := ⟨[], by decide⟩

/-- A file system with the three sample files; every other path cannot be opened. -/
def sampleFs : FileSystem := fun file =>
  if file = "a.jsc" then some sampleFile
  else if file = "short.jsc" then some shortFile
  else if file = "empty.jsc" then some emptyFile
  else none

/-! ## The patch loop -/

theorem stores_succ (d : List Byte) (i n : Nat) :
    stores d i (n + 1) = Event.store i (d.getD i 0) :: stores d (i + 1) n := by
  simp [stores, List.range'_succ]

/-- When both buffers reach up to index `i + k`, the loop ends normally, logs one store
per index and yields the target with exactly the indices `i .. i+k-1` replaced. -/
theorem fixBytecodeLoop_ok (d : List Byte) :
    ∀ (k i : Nat) (log : List Event) (b : List Byte),
      i + k ≤ d.length → i + k ≤ b.length →
      ∃ out, fixBytecodeLoop d k i log b = ⟨log ++ stores d i k, .ok out⟩ ∧
        out.length = b.length ∧
        ∀ j, out[j]? = if i ≤ j ∧ j < i + k then d[j]? else b[j]? := by
  intro k
  induction k with
  | zero =>
    intro i log b _ _
    refine ⟨b, by simp [fixBytecodeLoop, stores], rfl, ?_⟩
    intro j
    have : ¬ (i ≤ j ∧ j < i + 0) := by omega
    rw [if_neg this]
  | succ k ih =>
    intro i log b hd hb
    have hid : i < d.length := by omega
    have hib : i < b.length := by omega
    obtain ⟨out, hrun, hlen, hget⟩ :=
      ih (i + 1) (log ++ [Event.store i d[i]]) (b.set i d[i])
        (by omega) (by simp; omega)
    refine ⟨out, ?_, by simpa using hlen, ?_⟩
    · simp only [fixBytecodeLoop, List.getElem?_eq_getElem hid, hib, if_true]
      rw [hrun, stores_succ]
      simp [List.getD_eq_getElem?_getD, List.getElem?_eq_getElem hid]
    · intro j
      rw [hget j]
      by_cases hj : j = i
      · subst hj
        simp [hid, hib]
      · have h1 : (i + 1 ≤ j ∧ j < i + 1 + k) ↔ (i ≤ j ∧ j < i + (k + 1)) := by omega
        have h2 : (b.set i d[i])[j]? = b[j]? := by
          rw [List.getElem?_set_ne]
          omega
        simp only [h1, h2]

/-- When one of the buffers ends before index `i + k`, the loop stops at the first index
`m` outside a buffer, having stored the indices before it; the dummy blob is read
first, so it is named in the fault when both are too short. -/
theorem fixBytecodeLoop_fault (d : List Byte) :
    ∀ (k i : Nat) (log : List Event) (b : List Byte),
      0 < k → min d.length b.length < i + k →
      fixBytecodeLoop d k i log b =
        ⟨log ++ stores d i (max i (min d.length b.length) - i),
         .error (.outOfBounds (if d.length ≤ max i (min d.length b.length) then .dummy
            else .target) (max i (min d.length b.length)))⟩ := by
  intro k
  induction k with
  | zero => intro i log b h; omega
  | succ k ih =>
    intro i log b _ hm
    by_cases hid : i < d.length
    · by_cases hib : i < b.length
      · have hmi : max i (min d.length b.length) = min d.length b.length := by omega
        have hk : 0 < k := by omega
        have hrec := ih (i + 1) (log ++ [Event.store i d[i]]) (b.set i d[i]) hk
          (by simp; omega)
        have hmi1 : max (i + 1) (min d.length b.length) = min d.length b.length := by omega
        simp only [List.length_set, hmi1] at hrec
        simp only [fixBytecodeLoop, List.getElem?_eq_getElem hid, hib, if_true, hmi]
        rw [hrec]
        have hn : min d.length b.length - i = (min d.length b.length - (i + 1)) + 1 := by
          omega
        rw [hn, stores_succ]
        simp [List.getD_eq_getElem?_getD, List.getElem?_eq_getElem hid]
      · have hmi : max i (min d.length b.length) = i := by omega
        have hnd : ¬ d.length ≤ i := by omega
        simp [fixBytecodeLoop, List.getElem?_eq_getElem hid, hib, hmi, hnd, stores]
    · have hmi : max i (min d.length b.length) = i := by omega
      have hnone : d[i]? = none := by
        rw [List.getElem?_eq_none]
        omega
      have hdi : d.length ≤ i := by omega
      simp [fixBytecodeLoop, hnone, hmi, hdi, stores]

/-! ## `fixBytecode` and `runBytecode` -/

theorem fixBytecode_ok (eng : Engine) (b : List Byte) (c : String)
    (hb : 16 ≤ b.length) (hd : 16 ≤ (eng.createCodeCache c).length) :
    ∃ out, fixBytecode eng b c =
        ⟨Event.createCodeCache c :: stores (eng.createCodeCache c) 4 12, .ok out⟩ ∧
      out.length = b.length ∧
      ∀ j, out[j]? = if 4 ≤ j ∧ j < 16 then (eng.createCodeCache c)[j]? else b[j]? := by
  obtain ⟨out, hrun, hlen, hget⟩ :=
    fixBytecodeLoop_ok (eng.createCodeCache c) 12 4 [Event.createCodeCache c] b
      (by omega) (by omega)
  exact ⟨out, by simpa [fixBytecode, compileCode] using hrun, hlen, hget⟩

theorem fixBytecode_fault (eng : Engine) (b : List Byte) (c : String)
    (h : min (eng.createCodeCache c).length b.length < 16) :
    fixBytecode eng b c =
      ⟨Event.createCodeCache c ::
          stores (eng.createCodeCache c) 4
            (max 4 (min (eng.createCodeCache c).length b.length) - 4),
        .error (.outOfBounds
          (if (eng.createCodeCache c).length ≤
              max 4 (min (eng.createCodeCache c).length b.length) then .dummy else .target)
          (max 4 (min (eng.createCodeCache c).length b.length)))⟩ := by
  have hrun := fixBytecodeLoop_fault (eng.createCodeCache c) 12 4
    [Event.createCodeCache c] b (by omega) (by omega)
  simpa [fixBytecode, compileCode] using hrun

theorem runBytecode_ok (eng : Engine) (b : List Byte) (len : Int)
    (hb : 16 ≤ b.length) (hd : 16 ≤ (eng.createCodeCache code).length) :
    ∃ out, runBytecode eng b len =
        ⟨Event.createCodeCache code :: stores (eng.createCodeCache code) 4 12 ++
            [Event.consume code "code.jsc" out len], .ok ()⟩ ∧
      out.length = b.length ∧
      ∀ j, out[j]? = if 4 ≤ j ∧ j < 16 then (eng.createCodeCache code)[j]? else b[j]? := by
  obtain ⟨out, hrun, hlen, hget⟩ := fixBytecode_ok eng b code hb hd
  exact ⟨out, by simp [runBytecode, hrun], hlen, hget⟩

theorem runBytecode_fault (eng : Engine) (b : List Byte) (len : Int)
    (h : min (eng.createCodeCache code).length b.length < 16) :
    runBytecode eng b len =
      ⟨Event.createCodeCache code ::
          stores (eng.createCodeCache code) 4
            (max 4 (min (eng.createCodeCache code).length b.length) - 4),
        .error (.outOfBounds
          (if (eng.createCodeCache code).length ≤
              max 4 (min (eng.createCodeCache code).length b.length) then .dummy
            else .target)
          (max 4 (min (eng.createCodeCache code).length b.length)))⟩ := by
  simp [runBytecode, fixBytecode_fault eng b code h]

/-! ## `readAllBytes` -/

theorem toSizeT_natCast (n : Nat) (h : n < 2 ^ 64) : toSizeT (n : Int) = n := by
  unfold toSizeT
  have : ((n : Int) % 2 ^ 64) = n := by
    apply Int.emod_eq_of_lt
    · exact Int.natCast_nonneg n
    · exact_mod_cast h
  rw [this]
  simp

theorem readAllBytes_nonempty (fs : FileSystem) (file : String) (f : FileData)
    (buffer : List Byte) (hf : fs file = some f) (hn : 0 < f.bytes.length) :
    readAllBytes fs file buffer = ⟨[Event.openFile file], .ok f.bytes⟩ := by
  have hsz := f.size_ok
  have h64 : f.bytes.length < 2 ^ 64 := by omega
  have hmax : f.bytes.length ≤ vectorMaxSize := by
    unfold vectorMaxSize
    omega
  simp [readAllBytes, IfStream.open, hf, IfStream.seekg, IfStream.tellg,
    toSizeT_natCast _ h64, hn, vectorResize, hmax, IfStream.read]
  omega

theorem readAllBytes_empty (fs : FileSystem) (file : String) (f : FileData)
    (buffer : List Byte) (hf : fs file = some f) (hn : f.bytes.length = 0) :
    readAllBytes fs file buffer = ⟨[Event.openFile file], .ok buffer⟩ := by
  simp [readAllBytes, IfStream.open, hf, IfStream.seekg, IfStream.tellg, hn, toSizeT]

theorem readAllBytes_missing (fs : FileSystem) (file : String) (buffer : List Byte)
    (hf : fs file = none) :
    readAllBytes fs file buffer =
      ⟨[Event.openFile file], .error (.lengthError (2 ^ 64 - 1))⟩ := by
  have h1 : toSizeT (-1) = 2 ^ 64 - 1 := by decide
  have h2 : ¬ (2 ^ 64 - 1 ≤ vectorMaxSize) := by decide
  simp only [readAllBytes, IfStream.open, hf, IfStream.seekg, IfStream.tellg, if_true,
    h1, vectorResize, h2, if_false]
  rfl

theorem readAllBytes_fresh (fs : FileSystem) (file : String) (f : FileData)
    (hf : fs file = some f) :
    readAllBytes fs file [] = ⟨[Event.openFile file], .ok f.bytes⟩ := by
  by_cases hn : 0 < f.bytes.length
  · exact readAllBytes_nonempty fs file f [] hf hn
  · have h0 : f.bytes.length = 0 := by omega
    rw [readAllBytes_empty fs file f [] hf h0, List.length_eq_zero.mp h0]

/-! ## `main` -/

theorem main_ok (fs : FileSystem) (eng : Engine) (file : String) (f : FileData)
    (hf : fs file = some f) (h16 : 16 ≤ f.bytes.length)
    (hd : 16 ≤ (eng.createCodeCache code).length) :
    ∃ out, main fs eng file =
        ⟨[Event.openFile file, Event.createCodeCache code] ++
            stores (eng.createCodeCache code) 4 12 ++
            [Event.consume code "code.jsc" out (toInt f.bytes.length)], .ok ()⟩ ∧
      out.length = f.bytes.length ∧
      ∀ j, out[j]? =
        if 4 ≤ j ∧ j < 16 then (eng.createCodeCache code)[j]? else f.bytes[j]? := by
  obtain ⟨out, hrun, hlen, hget⟩ :=
    runBytecode_ok eng f.bytes (toInt f.bytes.length) h16 hd
  exact ⟨out, by simp [main, readAllBytes_fresh fs file f hf, hrun], hlen, hget⟩

theorem main_fault (fs : FileSystem) (eng : Engine) (file : String) (f : FileData)
    (hf : fs file = some f)
    (h : min (eng.createCodeCache code).length f.bytes.length < 16) :
    main fs eng file =
      ⟨[Event.openFile file, Event.createCodeCache code] ++
          stores (eng.createCodeCache code) 4
            (max 4 (min (eng.createCodeCache code).length f.bytes.length) - 4),
        .error (.outOfBounds
          (if (eng.createCodeCache code).length ≤
              max 4 (min (eng.createCodeCache code).length f.bytes.length) then .dummy
            else .target)
          (max 4 (min (eng.createCodeCache code).length f.bytes.length)))⟩ := by
  simp [main, readAllBytes_fresh fs file f hf,
    runBytecode_fault eng f.bytes (toInt f.bytes.length) h]

/-! ## The narrowing conversion -/

theorem toInt_eq_self_iff (n : Nat) : toInt n = (n : Int) ↔ n < 2 ^ 31 := by
  unfold toInt
  split <;> omega

theorem toInt_range (n : Nat) : -2 ^ 31 ≤ toInt n ∧ toInt n < 2 ^ 31 := by
  unfold toInt
  split <;> omega

theorem toInt_emod (n : Nat) : toInt n % 2 ^ 32 = ((n % 2 ^ 32 : Nat) : Int) := by
  unfold toInt
  split <;> omega

/-! ## Properties of `fixBytecode` -/

/-- C1: when the target buffer and the dummy cache blob both have at least 16 bytes,
`fixBytecode` ends normally and the patched target holds, at every index `i` with
`4 ≤ i < 16`, the byte of the dummy blob at `i`: the version hash, source hash and
flag hash of the target are those of the dummy blob. -/
theorem fixBytecode_copies_hashes (eng : Engine) (b : List Byte) (c : String)
    (hb : 16 ≤ b.length) (hd : 16 ≤ (eng.createCodeCache c).length) :
    ∃ out, (fixBytecode eng b c).res = .ok out ∧
      ∀ i, 4 ≤ i → i < 16 →
        ∃ v, out[i]? = some v ∧ (eng.createCodeCache c)[i]? = some v := by
  obtain ⟨out, hrun, _, hget⟩ := fixBytecode_ok eng b c hb hd
  refine ⟨out, by rw [hrun], ?_⟩
  intro i h4 h16
  have hi : i < (eng.createCodeCache c).length := by omega
  refine ⟨(eng.createCodeCache c)[i], ?_, List.getElem?_eq_getElem hi⟩
  rw [hget i, if_pos ⟨h4, h16⟩, List.getElem?_eq_getElem hi]

theorem fixBytecode_copies_hashes_witness :
    ∃ out, (fixBytecode sampleEngine sampleFile.bytes code).res = .ok out ∧
      ∀ i, 4 ≤ i → i < 16 →
        ∃ v, out[i]? = some v ∧ (sampleEngine.createCodeCache code)[i]? = some v :=
  fixBytecode_copies_hashes sampleEngine sampleFile.bytes code (by decide) (by decide)

/-- C4: the result of `fixBytecode` does not depend on bytes 4..15 of its input: two
targets of the same length (at least 16) that agree at every index outside `[4, 16)`
are patched, with a dummy blob of at least 16 bytes, to the same buffer by the same
sequence of actions, and the run ends normally. -/
theorem fixBytecode_ignores_old_hashes (eng : Engine) (b1 b2 : List Byte) (c : String)
    (hlen : b1.length = b2.length) (hb : 16 ≤ b1.length)
    (hd : 16 ≤ (eng.createCodeCache c).length)
    (hagree : ∀ i, i < 4 ∨ 16 ≤ i → b1[i]? = b2[i]?) :
    fixBytecode eng b1 c = fixBytecode eng b2 c ∧
      ∃ out, (fixBytecode eng b1 c).res = .ok out := by
  obtain ⟨o1, hrun1, _, hget1⟩ := fixBytecode_ok eng b1 c hb hd
  obtain ⟨o2, hrun2, _, hget2⟩ := fixBytecode_ok eng b2 c (by omega) hd
  have ho : o1 = o2 := by
    apply List.ext_getElem?
    intro j
    rw [hget1 j, hget2 j]
    by_cases hj : 4 ≤ j ∧ j < 16
    · simp [hj]
    · rw [if_neg hj, if_neg hj]
      exact hagree j (by omega)
  refine ⟨by rw [hrun1, hrun2, ho], o1, by rw [hrun1]⟩

theorem fixBytecode_ignores_old_hashes_witness :
    fixBytecode sampleEngine (List.replicate 16 0) code =
        fixBytecode sampleEngine ([0, 0, 0, 0] ++ List.replicate 12 0xFF) code ∧
      ∃ out, (fixBytecode sampleEngine (List.replicate 16 0) code).res = .ok out :=
  fixBytecode_ignores_old_hashes sampleEngine (List.replicate 16 0)
    ([0, 0, 0, 0] ++ List.replicate 12 0xFF) code (by decide) (by decide) (by decide)
    (by
      intro i hi
      rcases hi with h | h
      · interval_cases i <;> rfl
      · have h1 : (List.replicate 16 (0 : Byte)).length ≤ i := by simpa using h
        have h2 : ([0, 0, 0, 0] ++ List.replicate 12 (0xFF : Byte)).length ≤ i := by
          simpa using h
        rw [List.getElem?_eq_none h1, List.getElem?_eq_none h2])

/-- C8: frame of `fixBytecode`: for a target of length `n ≥ 16` and a dummy blob of at
least 16 bytes the run ends normally, the patched buffer has length `n`, and every
index below 4 and every index from 16 on holds the byte it held before; only the
twelve indices 4..15 may change. -/
theorem fixBytecode_frame (eng : Engine) (b : List Byte) (c : String)
    (hb : 16 ≤ b.length) (hd : 16 ≤ (eng.createCodeCache c).length) :
    ∃ out, (fixBytecode eng b c).res = .ok out ∧ out.length = b.length ∧
      ∀ i, i < 4 ∨ 16 ≤ i → out[i]? = b[i]? := by
  obtain ⟨out, hrun, hlen, hget⟩ := fixBytecode_ok eng b c hb hd
  refine ⟨out, by rw [hrun], hlen, ?_⟩
  intro i hi
  have hni : ¬ (4 ≤ i ∧ i < 16) := by omega
  rw [hget i, if_neg hni]

theorem fixBytecode_frame_witness :
    ∃ out, (fixBytecode sampleEngine sampleFile.bytes code).res = .ok out ∧
      out.length = sampleFile.bytes.length ∧
      ∀ i, i < 4 ∨ 16 ≤ i → out[i]? = sampleFile.bytes[i]? :=
  fixBytecode_frame sampleEngine sampleFile.bytes code (by decide) (by decide)

/-- C5: no length check precedes the patch.  With index-checked accesses `fixBytecode`
ends normally exactly when the target and the dummy blob both have at least 16 bytes.
For a target shorter than 16 bytes it faults with an out-of-bounds access at an index
`i` with `4 ≤ i < 16`, having performed only the compile of the snippet and the
stores before `i`.  Likewise `main`, on a file shorter than 16 bytes (the empty file
included), does nothing but open the file, compile the snippet and store the bytes
before `i`, and then faults with that out-of-bounds access; when the dummy blob has
its 16 bytes the access is the one on the target at index `max 4 n`. -/
theorem patch_is_unchecked (fs : FileSystem) (eng : Engine) (file : String)
    (f : FileData) (b : List Byte) (c : String)
    (hf : fs file = some f) (hshort : f.bytes.length < 16) :
    ((∃ out, (fixBytecode eng b c).res = .ok out) ↔
        16 ≤ b.length ∧ 16 ≤ (eng.createCodeCache c).length) ∧
    (b.length < 16 → ∃ which i, 4 ≤ i ∧ i < 16 ∧
        fixBytecode eng b c =
          ⟨Event.createCodeCache c :: stores (eng.createCodeCache c) 4 (i - 4),
            .error (.outOfBounds which i)⟩) ∧
    ∃ which i, 4 ≤ i ∧ i < 16 ∧
      main fs eng file =
        ⟨[Event.openFile file, Event.createCodeCache code] ++
            stores (eng.createCodeCache code) 4 (i - 4),
          .error (.outOfBounds which i)⟩ ∧
      (16 ≤ (eng.createCodeCache code).length →
        which = .target ∧ i = max 4 f.bytes.length) := by
  refine ⟨⟨?_, ?_⟩, ?_, ?_⟩
  · rintro ⟨out, hout⟩
    by_contra hneg
    have hm : min (eng.createCodeCache c).length b.length < 16 := by omega
    rw [fixBytecode_fault eng b c hm] at hout
    cases hout
  · rintro ⟨hb, hd⟩
    obtain ⟨out, hrun, _, _⟩ := fixBytecode_ok eng b c hb hd
    exact ⟨out, by rw [hrun]⟩
  · intro hb
    have hm : min (eng.createCodeCache c).length b.length < 16 := by omega
    exact ⟨_, _, by omega, by omega, fixBytecode_fault eng b c hm⟩
  · have hm : min (eng.createCodeCache code).length f.bytes.length < 16 := by omega
    refine ⟨_, _, by omega, by omega, main_fault fs eng file f hf hm, ?_⟩
    intro hd
    have h1 : min (eng.createCodeCache code).length f.bytes.length = f.bytes.length := by
      omega
    have h2 : ¬ (eng.createCodeCache code).length ≤ max 4 f.bytes.length := by omega
    rw [h1, if_neg h2]
    exact ⟨rfl, rfl⟩

theorem patch_is_unchecked_witness :
    ((∃ out, (fixBytecode sampleEngine shortFile.bytes code).res = .ok out) ↔
        16 ≤ shortFile.bytes.length ∧ 16 ≤ (sampleEngine.createCodeCache code).length) ∧
    (shortFile.bytes.length < 16 → ∃ which i, 4 ≤ i ∧ i < 16 ∧
        fixBytecode sampleEngine shortFile.bytes code =
          ⟨Event.createCodeCache code ::
              stores (sampleEngine.createCodeCache code) 4 (i - 4),
            .error (.outOfBounds which i)⟩) ∧
    ∃ which i, 4 ≤ i ∧ i < 16 ∧
      main sampleFs sampleEngine "short.jsc" =
        ⟨[Event.openFile "short.jsc", Event.createCodeCache code] ++
            stores (sampleEngine.createCodeCache code) 4 (i - 4),
          .error (.outOfBounds which i)⟩ ∧
      (16 ≤ (sampleEngine.createCodeCache code).length →
        which = .target ∧ i = max 4 shortFile.bytes.length) :=
  patch_is_unchecked sampleFs sampleEngine "short.jsc" shortFile shortFile.bytes code
    (by rfl) (by decide)

/-! ## Properties of `readAllBytes` -/

/-- C6: `readAllBytes` reads the whole file.  For a file that can be opened and holds
`n > 0` bytes, the buffer afterwards is the file's contents, byte for byte and of
size `n`, whatever the buffer held before; for a file of length 0 the buffer is
returned as it was passed in, which in `main` is the empty vector. -/
theorem readAllBytes_reads_file (fs : FileSystem) (file : String) (f : FileData)
    (buffer : List Byte) (hf : fs file = some f) :
    (0 < f.bytes.length →
        (readAllBytes fs file buffer).res = .ok f.bytes) ∧
    (f.bytes.length = 0 →
        (readAllBytes fs file buffer).res = .ok buffer ∧
        (readAllBytes fs file []).res = .ok []) := by
  constructor
  · intro hn
    rw [readAllBytes_nonempty fs file f buffer hf hn]
  · intro h0
    rw [readAllBytes_empty fs file f buffer hf h0, readAllBytes_empty fs file f [] hf h0]
    exact ⟨rfl, rfl⟩

theorem readAllBytes_reads_file_witness :
    (0 < sampleFile.bytes.length →
        (readAllBytes sampleFs "a.jsc" [1, 2, 3]).res = .ok sampleFile.bytes) ∧
    (sampleFile.bytes.length = 0 →
        (readAllBytes sampleFs "a.jsc" [1, 2, 3]).res = .ok [1, 2, 3] ∧
        (readAllBytes sampleFs "a.jsc" []).res = .ok []) :=
  readAllBytes_reads_file sampleFs "a.jsc" sampleFile [1, 2, 3] (by rfl)

/-- C9: a file that cannot be opened.  `tellg` yields `-1`, its conversion to `size_t`
is `2^64 - 1`, the guard `length > 0` holds, and `readAllBytes` asks `resize` for
`2^64 - 1` bytes, which ends the run in the length error of that request; `main`
stops there, before any engine call.  An empty file instead leaves the buffer as it
was, so the two cases are told apart, and neither yields a reported error. -/
theorem readAllBytes_missing_file (fs : FileSystem) (eng : Engine) (file : String)
    (buffer : List Byte) (hf : fs file = none) :
    ((IfStream.open fs file).seekg 0 .fromEnd).tellg = -1 ∧
    toSizeT (-1) = 2 ^ 64 - 1 ∧
    toSizeT ((IfStream.open fs file).seekg 0 .fromEnd).tellg > 0 ∧
    readAllBytes fs file buffer =
      ⟨[Event.openFile file], .error (.lengthError (2 ^ 64 - 1))⟩ ∧
    main fs eng file = ⟨[Event.openFile file], .error (.lengthError (2 ^ 64 - 1))⟩ ∧
    ∀ (fs0 : FileSystem) (f : FileData), fs0 file = some f → f.bytes.length = 0 →
      readAllBytes fs0 file buffer = ⟨[Event.openFile file], .ok buffer⟩ ∧
      readAllBytes fs file buffer ≠ readAllBytes fs0 file buffer := by
  have ht : ((IfStream.open fs file).seekg 0 .fromEnd).tellg = -1 := by
    simp [IfStream.open, hf, IfStream.seekg, IfStream.tellg]
  have hs : toSizeT (-1) = 2 ^ 64 - 1 := by decide
  refine ⟨ht, hs, ?_, readAllBytes_missing fs file buffer hf, ?_, ?_⟩
  · rw [ht, hs]
    decide
  · simp [main, readAllBytes_missing fs file [] hf]
  · intro fs0 f hf0 h0
    refine ⟨readAllBytes_empty fs0 file f buffer hf0 h0, ?_⟩
    rw [readAllBytes_missing fs file buffer hf, readAllBytes_empty fs0 file f buffer hf0 h0]
    intro h
    cases h

theorem readAllBytes_missing_file_witness :
    readAllBytes sampleFs "absent.jsc" [] =
      ⟨[Event.openFile "absent.jsc"], .error (.lengthError (2 ^ 64 - 1))⟩ :=
  (readAllBytes_missing_file sampleFs sampleEngine "absent.jsc" [] (by rfl)).2.2.2.1

/-! ## Properties of `runBytecode` and `main` -/

theorem headerField_congr (l1 l2 : List Byte) (off : Nat)
    (h : ∀ j, off ≤ j → j < off + 4 → l1[j]? = l2[j]?) :
    headerField l1 off = headerField l2 off := by
  apply List.ext_getElem?
  intro j
  unfold headerField
  by_cases hj : j < 4
  · rw [List.getElem?_take_of_lt hj, List.getElem?_take_of_lt hj, List.getElem?_drop,
      List.getElem?_drop]
    exact h (off + j) (by omega) (by omega)
  · rw [List.getElem?_eq_none (by simp; omega), List.getElem?_eq_none (by simp; omega)]

/-- C2: the pipeline of `main` and `runBytecode`.  For a file that can be opened whose
contents have length `n` with `16 ≤ n < 2^31`, and a dummy blob that has its bytes
4..15, the run ends normally and performs, in this order: open and read the file,
compile the dummy snippet, store bytes 4..15, consume.  The buffer handed to the
consuming compile is the file's contents with bytes 4..15 replaced by those of the
dummy blob, and the length handed over is `n`. -/
theorem main_pipeline (fs : FileSystem) (eng : Engine) (file : String) (f : FileData)
    (hf : fs file = some f) (h16 : 16 ≤ f.bytes.length) (h31 : f.bytes.length < 2 ^ 31)
    (hd : 16 ≤ (eng.createCodeCache code).length) :
    ∃ out, main fs eng file =
        ⟨[Event.openFile file, Event.createCodeCache code] ++
            stores (eng.createCodeCache code) 4 12 ++
            [Event.consume code "code.jsc" out (f.bytes.length : Int)], .ok ()⟩ ∧
      out.length = f.bytes.length ∧
      ∀ i, out[i]? =
        if 4 ≤ i ∧ i < 16 then (eng.createCodeCache code)[i]? else f.bytes[i]? := by
  obtain ⟨out, hrun, hlen, hget⟩ := main_ok fs eng file f hf h16 hd
  rw [(toInt_eq_self_iff f.bytes.length).mpr h31] at hrun
  exact ⟨out, hrun, hlen, hget⟩

theorem main_pipeline_witness :
    ∃ out, main sampleFs sampleEngine "a.jsc" =
        ⟨[Event.openFile "a.jsc", Event.createCodeCache code] ++
            stores (sampleEngine.createCodeCache code) 4 12 ++
            [Event.consume code "code.jsc" out (sampleFile.bytes.length : Int)], .ok ()⟩ ∧
      out.length = sampleFile.bytes.length ∧
      ∀ i, out[i]? =
        if 4 ≤ i ∧ i < 16 then (sampleEngine.createCodeCache code)[i]?
        else sampleFile.bytes[i]? :=
  main_pipeline sampleFs sampleEngine "a.jsc" sampleFile (by rfl) (by decide) (by decide)
    (by decide)

/-- C3: the patched blob passes the engine's cache-validity check, modelled as the
comparison of the version-hash, source-hash and flag-hash fields with those of a
cache the same engine creates for the supplied source.  For every input buffer of at
least 16 bytes, whatever it holds, and every length argument, `runBytecode` ends
normally and the buffer it hands to the consuming compile passes the check for the
source it is consumed with (the dummy cache having its bytes 4..15). -/
theorem runBytecode_passes_check (eng : Engine) (b : List Byte) (len : Int)
    (hb : 16 ≤ b.length) (hd : 16 ≤ (eng.createCodeCache code).length) :
    ∃ out, runBytecode eng b len =
        ⟨Event.createCodeCache code :: stores (eng.createCodeCache code) 4 12 ++
            [Event.consume code "code.jsc" out len], .ok ()⟩ ∧
      cacheValidityCheck eng code out = true := by
  obtain ⟨out, hrun, hlen, hget⟩ := runBytecode_ok eng b len hb hd
  refine ⟨out, hrun, ?_⟩
  have hfield : ∀ off, 4 ≤ off → off + 4 ≤ 16 →
      headerField out off = headerField (eng.createCodeCache code) off := by
    intro off h1 h2
    apply headerField_congr
    intro j hj1 hj2
    rw [hget j, if_pos ⟨by omega, by omega⟩]
  have hlen16 : 16 ≤ out.length := by omega
  simp [cacheValidityCheck, hlen16, hfield 4 (by omega) (by omega),
    hfield 8 (by omega) (by omega), hfield 12 (by omega) (by omega)]

theorem runBytecode_passes_check_witness :
    ∃ out, runBytecode sampleEngine sampleFile.bytes 20 =
        ⟨Event.createCodeCache code :: stores (sampleEngine.createCodeCache code) 4 12 ++
            [Event.consume code "code.jsc" out 20], .ok ()⟩ ∧
      cacheValidityCheck sampleEngine code out = true :=
  runBytecode_passes_check sampleEngine sampleFile.bytes 20 (by decide) (by decide)

/-- C7: the dummy source is the same in both engine calls.  In every run of
`runBytecode`, faulting or not, each compile performed by `compileCode` and each
consuming compile carries the constant snippet `code`, and the source-hash bytes
8..11 of a consumed buffer are those of the cache the engine creates for the very
source it is consumed with.  When the target and the dummy cache have 16 bytes, both
calls do occur, the compile first. -/
theorem runBytecode_same_source (eng : Engine) (b : List Byte) (len : Int) :
    (∀ s, Event.createCodeCache s ∈ (runBytecode eng b len).log → s = code) ∧
    (∀ s o d l, Event.consume s o d l ∈ (runBytecode eng b len).log →
        s = code ∧ ∀ i, 8 ≤ i → i < 12 → d[i]? = (eng.createCodeCache s)[i]?) ∧
    (16 ≤ b.length → 16 ≤ (eng.createCodeCache code).length →
      ∃ out, (runBytecode eng b len).log =
        Event.createCodeCache code :: stores (eng.createCodeCache code) 4 12 ++
          [Event.consume code "code.jsc" out len]) := by
  by_cases h : 16 ≤ b.length ∧ 16 ≤ (eng.createCodeCache code).length
  · obtain ⟨out, hrun, _, hget⟩ := runBytecode_ok eng b len h.1 h.2
    rw [hrun]
    refine ⟨?_, ?_, fun _ _ => ⟨out, rfl⟩⟩
    · intro s hs
      simp [stores] at hs
      exact hs
    · intro s o d l hs
      simp [stores] at hs
      obtain ⟨rfl, _, rfl, _⟩ := hs
      refine ⟨rfl, ?_⟩
      intro i h8 h12
      rw [hget i, if_pos ⟨by omega, by omega⟩]
  · have hm : min (eng.createCodeCache code).length b.length < 16 := by omega
    rw [runBytecode_fault eng b len hm]
    refine ⟨?_, ?_, fun hb hd => absurd ⟨hb, hd⟩ h⟩
    · intro s hs
      simp [stores] at hs
      exact hs
    · intro s o d l hs
      simp [stores] at hs

theorem runBytecode_same_source_witness :
    ∃ out, (runBytecode sampleEngine sampleFile.bytes 20).log =
      Event.createCodeCache code :: stores (sampleEngine.createCodeCache code) 4 12 ++
        [Event.consume code "code.jsc" out 20] :=
  (runBytecode_same_source sampleEngine sampleFile.bytes 20).2.2 (by decide) (by decide)

/-- C10: the buffer size reaches `runBytecode` as a 32-bit signed `int`.  For a file of
`n ≥ 16` bytes (the dummy cache having its bytes 4..15) the length handed to the
consuming compile is `toInt n`.  It equals `n` exactly when `n < 2^31`; for
`n ≥ 2^31` it differs from `n`, lies in `[-2^31, 2^31)` and is congruent to `n`
modulo `2^32`; a file of `2^31` bytes gives `-2^31`, one of `2^32` bytes gives `0`. -/
theorem main_length_narrowing (fs : FileSystem) (eng : Engine) (file : String)
    (f : FileData) (hf : fs file = some f) (h16 : 16 ≤ f.bytes.length)
    (hd : 16 ≤ (eng.createCodeCache code).length) :
    (∃ out, main fs eng file =
        ⟨[Event.openFile file, Event.createCodeCache code] ++
            stores (eng.createCodeCache code) 4 12 ++
            [Event.consume code "code.jsc" out (toInt f.bytes.length)], .ok ()⟩) ∧
    (toInt f.bytes.length = (f.bytes.length : Int) ↔ f.bytes.length < 2 ^ 31) ∧
    (2 ^ 31 ≤ f.bytes.length →
      toInt f.bytes.length ≠ (f.bytes.length : Int) ∧
      -2 ^ 31 ≤ toInt f.bytes.length ∧ toInt f.bytes.length < 2 ^ 31 ∧
      toInt f.bytes.length % 2 ^ 32 = ((f.bytes.length % 2 ^ 32 : Nat) : Int)) ∧
    (f.bytes.length = 2 ^ 31 → toInt f.bytes.length = -2 ^ 31) ∧
    (f.bytes.length = 2 ^ 32 → toInt f.bytes.length = 0) := by
  obtain ⟨out, hrun, _, _⟩ := main_ok fs eng file f hf h16 hd
  refine ⟨⟨out, hrun⟩, toInt_eq_self_iff _, ?_, ?_, ?_⟩
  · intro hbig
    refine ⟨?_, (toInt_range _).1, (toInt_range _).2, toInt_emod _⟩
    intro heq
    have := (toInt_eq_self_iff _).mp heq
    omega
  · intro h
    rw [h]
    decide
  · intro h
    rw [h]
    decide

theorem main_length_narrowing_witness :
    ∃ out, main sampleFs sampleEngine "a.jsc" =
      ⟨[Event.openFile "a.jsc", Event.createCodeCache code] ++
          stores (sampleEngine.createCodeCache code) 4 12 ++
          [Event.consume code "code.jsc" out (toInt sampleFile.bytes.length)], .ok ()⟩ :=
  (main_length_narrowing sampleFs sampleEngine "a.jsc" sampleFile (by rfl) (by decide)
    (by decide)).1

end V8dasm
